import Mathlib

/-!
Verification of the SafeTranx waitlist backend (Django / DRF application).

The development shallowly embeds the repository's data model and operations:

* `RoleEnum`, `WaitlistUser` — from `src/Backend/apps/operation/models.py`
* `serialize`, `fieldErrs`, `patchErrs` — from
  `src/Backend/apps/operation/serializers.py` (`WaitlistUserSerializer`,
  together with the validation semantics the declared DRF fields carry:
  required / blank checks, `max_length`, `ChoiceField` choices, `EmailField`
  format, `UniqueValidator` generated from `unique=True`)
* `create`, `getById`, `getOne`, `update`, `deleteOne`, `postWaitlist` —
  the standard `ModelViewSet` CRUD actions routed in
  `src/Backend/apps/operation/views.py` and `urls.py`
* `health_check` — from `src/Backend/swissah/views.py`

The persistent database is modelled as a `Store`: a list of rows plus the
auto-increment primary-key counter.  Timestamps are abstract `Nat` instants
supplied at the moment of persistence (`auto_now_add`).
-/

/-- RoleEnum from `models.py`: four members, declared in this order. -/
inductive RoleEnum where
  | BUYER
  | SELLER
  | RIDER
  | VALIDATOR
deriving DecidableEq, Repr

/-- Member name of a `RoleEnum` member (Python `key.name`). -/
def RoleEnum.name : RoleEnum → String
  | .BUYER => "BUYER"
  | .SELLER => "SELLER"
  | .RIDER => "RIDER"
  | .VALIDATOR => "VALIDATOR"

/-- Member value of a `RoleEnum` member (Python `key.value`). -/
def RoleEnum.value : RoleEnum → String
  | .BUYER => "buyer"
  | .SELLER => "seller"
  | .RIDER => "rider"
  | .VALIDATOR => "validator"

/-- Iteration order of the enum, as declared. -/
def RoleEnum.members : List RoleEnum :=
  [.BUYER, .SELLER, .RIDER, .VALIDATOR]

/-- RoleEnum.choices from `models.py`:
`[(key.name, key.value) for key in cls]` — note the pair is
(name, value), so the first component of each pair is the member NAME. -/
def RoleEnum.choices : List (String × String) :=
  RoleEnum.members.map (fun k => (k.name, k.value))

/-- Acceptable input values of the serializer's
`ChoiceField(choices=RoleEnum.choices())`: DRF (like Django) treats the
FIRST component of each pair as the stored/accepted value and the second
as the human-readable label. -/
def validRole (r : String) : Bool :=
  (RoleEnum.choices.map Prod.fst).contains r

/-- Row of the `WaitlistUser` table (`models.py`): auto primary key,
`full_name` (CharField, max_length 100), `email` (EmailField, unique),
`role` (CharField with choices), `joined_at` (DateTimeField,
auto_now_add).  Timestamps are abstract instants. -/
structure WaitlistUser where
  id : Nat
  full_name : String
  email : String
  role : String
  joined_at : Nat
deriving DecidableEq, Repr

/-- Splits a character list at the LAST occurrence of `c`; `none` when `c`
does not occur. -/
def lastSplitAt (c : Char) : List Char → Option (List Char × List Char)
  | [] => none
  | x :: xs =>
    match lastSplitAt c xs with
    | some (l, r) => some (x :: l, r)
    | none => if x = c then some ([], xs) else none

/-- Modelled from the spec: Django's `EmailField` format validator
(framework code, not under `src/`); the spec only requires that the email
"must be a syntactically valid email address".  Simplified executable
check: a non-empty local part before the last `@`, and a domain after it
that is non-empty, contains a dot, and neither starts nor ends with a
dot. -/
def isValidEmail (s : String) : Bool :=
  match lastSplitAt '@' s.data with
  | none => false
  | some (loc, dom) =>
    !loc.isEmpty && !dom.isEmpty && dom.contains '.' &&
      dom.head? != some '.' && dom.getLast? != some '.'

/-- Database state: stored rows plus the auto-increment primary-key
counter (next id to assign; Django primary keys start at 1). -/
structure Store where
  rows : List WaitlistUser
  nextId : Nat
deriving DecidableEq, Repr

/-- Empty database. -/
def initStore : Store := ⟨[], 1⟩

/-- Deserialized request body as the serializer sees it: each declared
field may be present or absent.  `id` and `joined_at` keys may appear in
a request body but are NOT declared in `Meta.fields`, so the serializer
never reads them. -/
structure RequestBody where
  full_name : Option String
  email : Option String
  role : Option String
  id : Option Nat
  joined_at : Option Nat
deriving DecidableEq, Repr

/-- Field-level validation errors raised by `WaitlistUserSerializer`. -/
inductive FieldError where
  | required (field : String)
  | blank (field : String)
  | maxLength (field : String)
  | invalidChoice (field : String)
  | invalidEmail
  | duplicateEmail
deriving DecidableEq, Repr

/-- Validation of a create (non-partial) request by
`WaitlistUserSerializer`: every declared field is required; `full_name`
must be non-blank and at most 100 characters (model `max_length=100`);
`email` must parse as an email address and — via the `UniqueValidator`
generated from `unique=True` — not collide with a stored row; `role` must
be one of the `ChoiceField` values. -/
def fieldErrs (st : Store) (b : RequestBody) : List FieldError :=
  (match b.full_name with
    | none => [.required "full_name"]
    | some fn =>
      if fn = "" then [.blank "full_name"]
      else if fn.length > 100 then [.maxLength "full_name"]
      else []) ++
  (match b.email with
    | none => [.required "email"]
    | some em =>
      if !isValidEmail em then [.invalidEmail]
      else if st.rows.any (fun r => r.email == em) then [.duplicateEmail]
      else []) ++
  (match b.role with
    | none => [.required "role"]
    | some ro => if validRole ro then [] else [.invalidChoice "role"])

/-- Validation of a partial (PATCH) update: absent fields are skipped;
present fields are validated as in `fieldErrs`, except that the email
uniqueness check excludes the instance being updated. -/
def patchErrs (st : Store) (i : Nat) (b : RequestBody) : List FieldError :=
  (match b.full_name with
    | none => []
    | some fn =>
      if fn = "" then [.blank "full_name"]
      else if fn.length > 100 then [.maxLength "full_name"]
      else []) ++
  (match b.email with
    | none => []
    | some em =>
      if !isValidEmail em then [.invalidEmail]
      else if st.rows.any (fun r => r.email == em && r.id != i)
        then [.duplicateEmail]
      else []) ++
  (match b.role with
    | none => []
    | some ro => if validRole ro then [] else [.invalidChoice "role"])

/-- Store-level create (the `perform_create`/`save` path): when the
serializer validates, a new row is persisted with the next auto primary
key and `joined_at` set to the instant of persistence (`auto_now_add`). -/
def create (st : Store) (now : Nat) (b : RequestBody) :
    Except (List FieldError) (WaitlistUser × Store) :=
  if fieldErrs st b = [] then
    let u : WaitlistUser :=
      ⟨st.nextId, b.full_name.getD "", b.email.getD "", b.role.getD "", now⟩
    .ok (u, ⟨st.rows ++ [u], st.nextId + 1⟩)
  else
    .error (fieldErrs st b)

/-- Serialized representation produced by `WaitlistUserSerializer`:
exactly the keys listed in `Meta.fields = ['full_name', 'email', 'role']`,
in that order. -/
def serialize (u : WaitlistUser) : List (String × String) :=
  [("full_name", u.full_name), ("email", u.email), ("role", u.role)]

/-- POST /waitlist (`ModelViewSet.create`): 201 with the serialized new
row on success, 400 with the field errors on validation failure. -/
def postWaitlist (st : Store) (now : Nat) (b : RequestBody) :
    (Nat × Except (List FieldError) (List (String × String))) × Store :=
  match create st now b with
  | .ok (u, st1) => ((201, .ok (serialize u)), st1)
  | .error errs => ((400, .error errs), st)

/-- Primary-key lookup (`get_object`). -/
def getById (st : Store) (i : Nat) : Option WaitlistUser :=
  st.rows.find? (fun r => r.id == i)

/-- GET /waitlist/i (`ModelViewSet.retrieve`): 200 with the serialized
row, or 404 when the id is absent. -/
def getOne (st : Store) (i : Nat) : Nat × Option (List (String × String)) :=
  match getById st i with
  | some u => (200, some (serialize u))
  | none => (404, none)

/-- GET /waitlist (`ModelViewSet.list` over
`queryset = WaitlistUser.objects.all()`): every stored row, in the order
the backend returns them (insertion order for an unordered table scan). -/
def listAll (st : Store) : List WaitlistUser :=
  st.rows

/-- Application of a validated partial update to a row: only the declared
fields `full_name`, `email`, `role` are written; `id` and `joined_at` are
not touched (`joined_at` has `auto_now_add`, which is set only at
creation). -/
def applyPatch (u : WaitlistUser) (b : RequestBody) : WaitlistUser :=
  { u with
    full_name := b.full_name.getD u.full_name
    email := b.email.getD u.email
    role := b.role.getD u.role }

/-- PATCH /waitlist/i (`ModelViewSet.partial_update`): 404 when the id is
absent; otherwise validate and either save the patched row (the updated
row replaces the stored one) or fail with 400 and the field errors. -/
def update (st : Store) (i : Nat) (b : RequestBody) :
    Except (Nat × List FieldError) (WaitlistUser × Store) :=
  match getById st i with
  | none => .error (404, [])
  | some u =>
    if patchErrs st i b = [] then
      let patched := applyPatch u b
      .ok (patched,
        ⟨st.rows.map (fun r => if r.id = i then patched else r), st.nextId⟩)
    else
      .error (400, patchErrs st i b)

/-- DELETE /waitlist/i (`ModelViewSet.destroy`): 204 and the row removed
when the id exists, 404 and the store unchanged otherwise. -/
def deleteOne (st : Store) (i : Nat) : Nat × Store :=
  if st.rows.any (fun r => r.id == i) then
    (204, ⟨st.rows.filter (fun r => r.id != i), st.nextId⟩)
  else
    (404, st)

/-- Outcome of the connectivity probe `connections['default'].cursor()`
in `swissah/views.py`: success, an `OperationalError`, or any other
exception. -/
inductive DbProbe where
  | ok
  | operationalError
  | otherError
deriving DecidableEq, Repr

/-- health_check from `swissah/views.py`: `db_status` starts as `"ok"`
and flips to `"unavailable"` only when the probe raises
`OperationalError`; any other exception escapes the `try` (no response is
returned, modelled as `none`).  The JSON body always carries top-level
`status: "ok"`; the HTTP code is 200 exactly when `db_status = "ok"`,
else 500. -/
def health_check (probe : DbProbe) :
    Option (Nat × List (String × String)) :=
  match probe with
  | .otherError => none
  | p =>
    let db_status := match p with
      | .ok => "ok"
      | _ => "unavailable"
    some (if db_status = "ok" then 200 else 500,
      [("status", "ok"), ("database", db_status)])

/-- States of the store reachable from the empty database through the
API's successful mutation paths (create, partial update, delete). -/
inductive Reachable : Store → Prop where
  | init : Reachable initStore
  | createStep (st : Store) (now : Nat) (b : RequestBody)
      (u : WaitlistUser) (st1 : Store) :
      Reachable st → create st now b = .ok (u, st1) → Reachable st1
  | updateStep (st : Store) (i : Nat) (b : RequestBody)
      (u : WaitlistUser) (st1 : Store) :
      Reachable st → update st i b = .ok (u, st1) → Reachable st1
  | deleteStep (st : Store) (i : Nat) :
      Reachable st → Reachable (deleteOne st i).2

/-- Store invariant: distinct emails and distinct primary keys across
rows, every stored `full_name` within the 100-character bound, every
primary key positive and below the auto-increment counter. -/
def StoreInv (st : Store) : Prop :=
  st.rows.Pairwise (fun a b => a.email ≠ b.email ∧ a.id ≠ b.id) ∧
  (∀ u ∈ st.rows, u.full_name.length ≤ 100 ∧ 1 ≤ u.id ∧ u.id < st.nextId ∧
    isValidEmail u.email = true) ∧
  1 ≤ st.nextId

/-- Runs a sequence of creates (each with its persistence instant),
failing if any single create fails. -/
def runCreates (st : Store) : List (Nat × RequestBody) → Option Store
  | [] => some st
  | (now, b) :: rest =>
    match create st now b with
    | .ok (_, st1) => runCreates st1 rest
    | .error _ => none

theorem fieldErrs_eq_nil {st : Store} {b : RequestBody}
    (h : fieldErrs st b = []) :
    ∃ fn em ro, b.full_name = some fn ∧ b.email = some em ∧ b.role = some ro ∧
      fn ≠ "" ∧ fn.length ≤ 100 ∧ isValidEmail em = true ∧
      (∀ r ∈ st.rows, r.email ≠ em) ∧ validRole ro = true := by
  unfold fieldErrs at h
  rcases hfn : b.full_name with _ | fn <;> rw [hfn] at h
  · simp at h
  rcases hem : b.email with _ | em <;> rw [hem] at h
  · simp at h
  rcases hro : b.role with _ | ro <;> rw [hro] at h
  · simp at h
  refine ⟨fn, em, ro, rfl, rfl, rfl, ?_⟩
  simp only [List.append_eq_nil] at h
  obtain ⟨⟨h1, h2⟩, h3⟩ := h
  split_ifs at h1 h2 h3
  simp_all

theorem create_ok {st : Store} {now : Nat} {b : RequestBody}
    {u : WaitlistUser} {st1 : Store}
    (h : create st now b = .ok (u, st1)) :
    fieldErrs st b = [] ∧
    u = ⟨st.nextId, b.full_name.getD "", b.email.getD "", b.role.getD "", now⟩ ∧
    st1 = ⟨st.rows ++ [u], st.nextId + 1⟩ := by
  unfold create at h
  split_ifs at h with he
  · simp only [Except.ok.injEq, Prod.mk.injEq] at h
    exact ⟨he, h.1.symm, by rw [← h.1]; exact h.2.symm⟩

theorem init_inv : StoreInv initStore := by
  refine ⟨List.Pairwise.nil, ?_, Nat.le_refl 1⟩
  intro u hu
  simp [initStore] at hu

theorem row_eq_of_id_eq {st : Store}
    (hpw : st.rows.Pairwise (fun a b => a.email ≠ b.email ∧ a.id ≠ b.id))
    {a c : WaitlistUser} (ha : a ∈ st.rows) (hc : c ∈ st.rows)
    (h : a.id = c.id) : a = c := by
  by_contra hne
  exact (hpw.forall (fun x y hxy => ⟨hxy.1.symm, hxy.2.symm⟩) ha hc hne).2 h

theorem create_inv {st : Store} {now : Nat} {b : RequestBody}
    {u : WaitlistUser} {st1 : Store}
    (hinv : StoreInv st) (h : create st now b = .ok (u, st1)) :
    StoreInv st1 := by
  obtain ⟨hnil, hu, hst1⟩ := create_ok h
  obtain ⟨fn, em, ro, hfn, hem, hro, hfne, hlen, hvem, hfresh, hvro⟩ :=
    fieldErrs_eq_nil hnil
  obtain ⟨hpw, hall, hpos⟩ := hinv
  subst hst1
  refine ⟨?_, ?_, ?_⟩
  · rw [List.pairwise_append]
    refine ⟨hpw, List.pairwise_singleton _ _, ?_⟩
    intro a ha c hc
    rw [List.mem_singleton] at hc
    subst hc
    rw [hu]
    simp only [hem, Option.getD_some]
    exact ⟨hfresh a ha, Nat.ne_of_lt (hall a ha).2.2.1⟩
  · intro v hv
    rcases List.mem_append.mp hv with hv | hv
    · obtain ⟨h1, h2, h3, h5⟩ := hall v hv
      exact ⟨h1, h2, Nat.lt_succ_of_lt h3, h5⟩
    · rw [List.mem_singleton] at hv
      subst hv
      rw [hu]
      simp only [hfn, hem, Option.getD_some]
      exact ⟨hlen, hpos, Nat.lt_succ_self _, hvem⟩
  · exact Nat.le_succ_of_le hpos

theorem update_ok {st : Store} {i : Nat} {b : RequestBody}
    {u1 : WaitlistUser} {st1 : Store}
    (h : update st i b = .ok (u1, st1)) :
    ∃ u, getById st i = some u ∧ patchErrs st i b = [] ∧
      u1 = applyPatch u b ∧
      st1 = ⟨st.rows.map (fun r => if r.id = i then u1 else r), st.nextId⟩ := by
  unfold update at h
  rcases hg : getById st i with _ | u <;> rw [hg] at h
  · exact absurd h (by simp)
  split_ifs at h with hp
  · simp only [Except.ok.injEq, Prod.mk.injEq] at h
    exact ⟨u, rfl, hp, h.1.symm, by rw [← h.1]; exact h.2.symm⟩

theorem patchErrs_eq_nil {st : Store} {i : Nat} {b : RequestBody}
    (h : patchErrs st i b = []) :
    (∀ fn, b.full_name = some fn → fn ≠ "" ∧ fn.length ≤ 100) ∧
    (∀ em, b.email = some em → isValidEmail em = true ∧
      ∀ r ∈ st.rows, r.id ≠ i → r.email ≠ em) ∧
    (∀ ro, b.role = some ro → validRole ro = true) := by
  unfold patchErrs at h
  simp only [List.append_eq_nil] at h
  obtain ⟨⟨h1, h2⟩, h3⟩ := h
  refine ⟨?_, ?_, ?_⟩
  · intro fn hfn
    rw [hfn] at h1
    have h4 : (if fn = "" then [FieldError.blank "full_name"]
        else if fn.length > 100 then [FieldError.maxLength "full_name"]
        else []) = ([] : List FieldError) := h1
    split_ifs at h4 with hb hl
    exact ⟨hb, by omega⟩
  · intro em hem
    rw [hem] at h2
    have h4 : (if (!isValidEmail em) = true then [FieldError.invalidEmail]
        else if (st.rows.any fun r => r.email == em && r.id != i) = true
          then [FieldError.duplicateEmail]
        else []) = ([] : List FieldError) := h2
    split_ifs at h4 with hv hdup
    refine ⟨by simpa using hv, ?_⟩
    intro r hr hri hcontra
    exact hdup (List.any_eq_true.mpr ⟨r, hr, by simp [hcontra, hri]⟩)
  · intro ro hro
    rw [hro] at h3
    have h4 : (if validRole ro = true then []
        else [FieldError.invalidChoice "role"]) = ([] : List FieldError) := h3
    split_ifs at h4 with hv
    exact hv

theorem applyPatch_id (u : WaitlistUser) (b : RequestBody) :
    (applyPatch u b).id = u.id := rfl

theorem applyPatch_joined_at (u : WaitlistUser) (b : RequestBody) :
    (applyPatch u b).joined_at = u.joined_at := rfl

theorem getById_some {st : Store} {i : Nat} {u : WaitlistUser}
    (h : getById st i = some u) : u ∈ st.rows ∧ u.id = i := by
  refine ⟨List.mem_of_find?_eq_some h, ?_⟩
  have := List.find?_some h
  simpa using this

theorem update_inv {st : Store} {i : Nat} {b : RequestBody}
    {u1 : WaitlistUser} {st1 : Store}
    (hinv : StoreInv st) (h : update st i b = .ok (u1, st1)) :
    StoreInv st1 := by
  obtain ⟨u, hget, hperrs, hu1, hst1⟩ := update_ok h
  obtain ⟨hfnP, hemP, _⟩ := patchErrs_eq_nil hperrs
  obtain ⟨hpw, hall, hpos⟩ := hinv
  obtain ⟨humem, huid⟩ := getById_some hget
  have hid1 : u1.id = i := by rw [hu1, applyPatch_id, huid]
  have hvalid1 : isValidEmail u1.email = true := by
    rw [hu1]
    rcases hem : b.email with _ | em
    · have hsame : (applyPatch u b).email = u.email := by
        simp [applyPatch, hem]
      rw [hsame]
      exact (hall u humem).2.2.2
    · have hsame : (applyPatch u b).email = em := by
        simp [applyPatch, hem]
      rw [hsame]
      exact (hemP em hem).1
  have hmapid : ∀ r : WaitlistUser, ((if r.id = i then u1 else r) : WaitlistUser).id = r.id := by
    intro r
    split_ifs with hri
    · rw [hid1, hri]
    · rfl
  have hemail1 : ∀ c ∈ st.rows, c.id ≠ i → c.email ≠ u1.email := by
    intro c hc hci
    rw [hu1]
    rcases hem : b.email with _ | em
    · show c.email ≠ (applyPatch u b).email
      have : (applyPatch u b).email = u.email := by
        simp [applyPatch, hem]
      rw [this]
      intro hcontra
      have hne : c ≠ u := by
        intro hcu
        exact hci (by rw [hcu, huid])
      exact (hpw.forall (fun x y hxy => ⟨hxy.1.symm, hxy.2.symm⟩)
        hc humem hne).1 hcontra
    · show c.email ≠ (applyPatch u b).email
      have : (applyPatch u b).email = em := by
        simp [applyPatch, hem]
      rw [this]
      exact (hemP em hem).2 c hc hci
  subst hst1
  refine ⟨?_, ?_, hpos⟩
  · rw [List.pairwise_map]
    refine hpw.imp_of_mem ?_
    intro a c ha hc hrel
    have haid := hmapid a
    have hcid := hmapid c
    refine ⟨?_, by rw [haid, hcid]; exact hrel.2⟩
    by_cases hai : a.id = i <;> by_cases hci : c.id = i
    · exact absurd (hai.trans hci.symm) hrel.2
    · simp only [if_pos hai, if_neg hci]
      exact fun hcontra => (hemail1 c hc hci) hcontra.symm
    · simp only [if_neg hai, if_pos hci]
      exact hemail1 a ha hai
    · simp only [if_neg hai, if_neg hci]
      exact hrel.1
  · intro v hv
    rw [List.mem_map] at hv
    obtain ⟨r, hr, hrv⟩ := hv
    obtain ⟨hr1, hr2, hr3, hr5⟩ := hall r hr
    by_cases hri : r.id = i
    · rw [← hrv, if_pos hri]
      have hidr : u1.id = r.id := by rw [hid1, hri]
      refine ⟨?_, by rw [hidr]; exact hr2, by rw [hidr]; exact hr3, hvalid1⟩
      have hau : u = r := row_eq_of_id_eq hpw humem hr (by rw [huid, hri])
      rw [hu1]
      rcases hfn : b.full_name with _ | fn
      · have : (applyPatch u b).full_name = u.full_name := by
          simp [applyPatch, hfn]
        rw [this, hau]
        exact hr1
      · have : (applyPatch u b).full_name = fn := by
          simp [applyPatch, hfn]
        rw [this]
        exact (hfnP fn hfn).2
    · rw [← hrv, if_neg hri]
      exact ⟨hr1, hr2, hr3, hr5⟩

theorem delete_inv {st : Store} (i : Nat) (hinv : StoreInv st) :
    StoreInv (deleteOne st i).2 := by
  obtain ⟨hpw, hall, hpos⟩ := hinv
  unfold deleteOne
  split_ifs with hex
  · refine ⟨hpw.filter _, ?_, hpos⟩
    intro v hv
    exact hall v (List.mem_of_mem_filter hv)
  · exact ⟨hpw, hall, hpos⟩

theorem reachable_inv {st : Store} (h : Reachable st) : StoreInv st := by
  induction h with
  | init => exact init_inv
  | createStep st now b u st1 _ hcr ih => exact create_inv ih hcr
  | updateStep st i b u st1 _ hup ih => exact update_inv ih hup
  | deleteStep st i _ ih => exact delete_inv i ih

theorem find?_skip_left {α : Type} {l₁ l₂ : List α} {p : α → Bool}
    (h : ∀ x ∈ l₁, p x = false) : (l₁ ++ l₂).find? p = l₂.find? p := by
  induction l₁ with
  | nil => rfl
  | cons a l ih =>
    rw [List.cons_append, List.find?_cons, h a (List.mem_cons_self a l)]
    exact ih (fun x hx => h x (List.mem_cons_of_mem a hx))

/-- C1: the claim (and spec) say `create` accepts exactly the lowercase
tokens buyer, seller, rider, validator.  The code disagrees:
`RoleEnum.choices()` builds `(name, value)` pairs, so the choice values —
the first components, which Django/DRF accept and store — are the
UPPERCASE member names.  Creating with role `"buyer"` fails with an
invalid-choice error (HTTP 400) while `"BUYER"` succeeds and is stored
verbatim. -/
theorem C1_role_tokens_swapped :
    validRole "buyer" = false ∧
    validRole "BUYER" = true ∧
    (postWaitlist initStore 5
      ⟨some "Alice Smith", some "alice@example.com", some "buyer",
        none, none⟩).1.1 = 400 ∧
    create initStore 5
      ⟨some "Alice Smith", some "alice@example.com", some "buyer",
        none, none⟩ = .error [.invalidChoice "role"] ∧
    create initStore 5
      ⟨some "Alice Smith", some "alice@example.com", some "BUYER",
        none, none⟩ =
      .ok (⟨1, "Alice Smith", "alice@example.com", "BUYER", 5⟩,
        ⟨[⟨1, "Alice Smith", "alice@example.com", "BUYER", 5⟩], 2⟩) :=
  ⟨rfl, rfl, rfl, rfl, rfl⟩

/-- C2 counterexample: the claim says every 201 response body carries all
four registrant attributes plus `id`.  At a concrete successful POST the
201 body holds only `full_name`, `email`, `role` — no `id`, no
`joined_at` (`Meta.fields` lists just those three). -/
theorem C2_counterexample :
    (postWaitlist initStore 5
      ⟨some "Alice Smith", some "alice@example.com", some "BUYER",
        none, none⟩).1 =
      (201, .ok [("full_name", "Alice Smith"),
        ("email", "alice@example.com"), ("role", "BUYER")]) ∧
    ((serialize ⟨1, "Alice Smith", "alice@example.com", "BUYER", 5⟩).map
      Prod.fst).contains "id" = false ∧
    ((serialize ⟨1, "Alice Smith", "alice@example.com", "BUYER", 5⟩).map
      Prod.fst).contains "joined_at" = false :=
  ⟨rfl, rfl, rfl⟩

/-- C2 (amended): every successful POST /waitlist returns 201 with the
serialized registrant, whose keys are exactly `full_name`, `email`,
`role` in the order of `Meta.fields`; `id` and `joined_at` are excluded
from the serialized representation. -/
theorem C2_serialized_fields (st : Store) (now : Nat) (b : RequestBody)
    (u : WaitlistUser) (st1 : Store)
    (h : create st now b = .ok (u, st1)) :
    (postWaitlist st now b).1 = (201, .ok (serialize u)) ∧
    (serialize u).map Prod.fst = ["full_name", "email", "role"] := by
  unfold postWaitlist
  rw [h]
  exact ⟨rfl, rfl⟩

theorem C2_serialized_fields_witness :
    (postWaitlist initStore 5
      ⟨some "Alice Smith", some "alice@example.com", some "BUYER",
        none, none⟩).1 =
      (201, .ok (serialize ⟨1, "Alice Smith", "alice@example.com",
        "BUYER", 5⟩)) ∧
    (serialize (⟨1, "Alice Smith", "alice@example.com", "BUYER", 5⟩ :
      WaitlistUser)).map Prod.fst = ["full_name", "email", "role"] :=
  C2_serialized_fields initStore 5
    ⟨some "Alice Smith", some "alice@example.com", some "BUYER",
      none, none⟩
    ⟨1, "Alice Smith", "alice@example.com", "BUYER", 5⟩
    ⟨[⟨1, "Alice Smith", "alice@example.com", "BUYER", 5⟩], 2⟩ rfl

/-- C4: GET /health answers 200 with body
`status: ok, database: ok` when the connectivity probe succeeds, and 500
with `status: ok, database: unavailable` when it raises
`OperationalError`; the top-level status field is `"ok"` in both
responses. -/
theorem C4_health_check_statuses :
    health_check .ok =
      some (200, [("status", "ok"), ("database", "ok")]) ∧
    health_check .operationalError =
      some (500, [("status", "ok"), ("database", "unavailable")]) :=
  ⟨rfl, rfl⟩

/-- C10: the health check's `except` clause names exactly
`OperationalError`: that exception yields the 500 `unavailable` response,
while any other exception escapes `health_check` without producing a
response. -/
theorem C10_health_check_catches_only_operational_error :
    health_check .operationalError =
      some (500, [("status", "ok"), ("database", "unavailable")]) ∧
    health_check .otherError = none :=
  ⟨rfl, rfl⟩

/-- C6: deleting an existing id answers 204 and a subsequent get of that
id answers 404; deleting an absent id answers 404.  (After `deleteOne`
the id is gone from the store unconditionally, so the retrieve is 404 in
either branch.) -/
theorem C6_delete_then_get (st : Store) (i : Nat) :
    (deleteOne st i).1 =
      (if (getById st i).isSome then 204 else 404) ∧
    getOne (deleteOne st i).2 i = (404, none) := by
  rcases hany : st.rows.any (fun r => r.id == i) with _ | _
  · have hnone : getById st i = none := by
      rw [getById, List.find?_eq_none]
      rw [List.any_eq_false] at hany
      exact hany
    constructor
    · simp [deleteOne, hany, hnone]
    · simp [deleteOne, hany, getOne, hnone]
  · have hsome : (getById st i).isSome = true := by
      rw [List.any_eq_true] at hany
      obtain ⟨r, hr, hp⟩ := hany
      rw [getById]
      rcases hf : st.rows.find? (fun r => r.id == i) with _ | v
      · rw [List.find?_eq_none] at hf
        exact absurd hp (hf r hr)
      · rw [hf]
        rfl
    have hgone :
        getById ⟨st.rows.filter (fun r => r.id != i), st.nextId⟩ i = none := by
      rw [getById, List.find?_eq_none]
      intro x hx
      have hne := (List.mem_filter.mp hx).2
      simp only [bne_iff_ne, ne_eq] at hne
      simp [hne]
    constructor
    · simp [deleteOne, hany, hsome]
    · simp [deleteOne, hany, getOne, hgone]

theorem post_400_of_errs {st : Store} {b : RequestBody} (now : Nat)
    (h : fieldErrs st b ≠ []) : (postWaitlist st now b).1.1 = 400 := by
  unfold postWaitlist create
  rw [if_neg h]

theorem duplicateEmail_mem {st : Store} {em : String}
    (hval : isValidEmail em = true)
    (hany : st.rows.any (fun r => r.email == em) = true)
    (fn ro : Option String) (x y : Option Nat) :
    FieldError.duplicateEmail ∈ fieldErrs st ⟨fn, some em, ro, x, y⟩ := by
  unfold fieldErrs
  refine List.mem_append_left _ (List.mem_append_right _ ?_)
  simp [hval, hany]

/-- C3: at every reachable state the stored emails are pairwise distinct
(at most one registrant per email), and a create that reuses the email of
any stored registrant fails with DuplicateEmail and HTTP 400, whatever
full name and role accompany it. -/
theorem C3_email_uniqueness {st : Store} {u : WaitlistUser}
    (hre : Reachable st) (hu : u ∈ st.rows) (now : Nat)
    (fn ro : Option String) (x y : Option Nat) :
    (st.rows.map (fun r => r.email)).Nodup ∧
    FieldError.duplicateEmail ∈ fieldErrs st ⟨fn, some u.email, ro, x, y⟩ ∧
    (postWaitlist st now ⟨fn, some u.email, ro, x, y⟩).1.1 = 400 := by
  obtain ⟨hpw, hall, hpos⟩ := reachable_inv hre
  have hdup : FieldError.duplicateEmail ∈
      fieldErrs st ⟨fn, some u.email, ro, x, y⟩ :=
    duplicateEmail_mem (hall u hu).2.2.2
      (List.any_eq_true.mpr ⟨u, hu, by simp⟩) fn ro x y
  refine ⟨?_, hdup, post_400_of_errs now (List.ne_nil_of_mem hdup)⟩
  exact List.pairwise_map.mpr (hpw.imp (fun h => h.1))

theorem C3_email_uniqueness_witness :
    ((⟨[⟨1, "Alice Smith", "alice@example.com", "BUYER", 5⟩], 2⟩ :
      Store).rows.map (fun r => r.email)).Nodup ∧
    FieldError.duplicateEmail ∈
      fieldErrs ⟨[⟨1, "Alice Smith", "alice@example.com", "BUYER", 5⟩], 2⟩
        ⟨some "Bob Jones", some "alice@example.com", some "SELLER",
          none, none⟩ ∧
    (postWaitlist ⟨[⟨1, "Alice Smith", "alice@example.com", "BUYER", 5⟩], 2⟩
      9 ⟨some "Bob Jones", some "alice@example.com", some "SELLER",
        none, none⟩).1.1 = 400 :=
  C3_email_uniqueness
    (Reachable.createStep initStore 5
      ⟨some "Alice Smith", some "alice@example.com", some "BUYER",
        none, none⟩
      ⟨1, "Alice Smith", "alice@example.com", "BUYER", 5⟩
      ⟨[⟨1, "Alice Smith", "alice@example.com", "BUYER", 5⟩], 2⟩
      Reachable.init rfl)
    (List.mem_singleton.mpr rfl) 9 (some "Bob Jones") (some "SELLER")
    none none

/-- C5: from any reachable state, a successful create followed by a
primary-key get of the new row's id returns that row, whose full name,
email and role equal the submitted values and whose id (positive, the
auto-increment counter) and joined-at instant are populated. -/
theorem C5_create_then_get {st : Store} {now : Nat} {b : RequestBody}
    {u : WaitlistUser} {st1 : Store} {fn em ro : String}
    (hre : Reachable st) (h : create st now b = .ok (u, st1))
    (hfn : b.full_name = some fn) (hem : b.email = some em)
    (hro : b.role = some ro) :
    getById st1 u.id = some u ∧ u.full_name = fn ∧ u.email = em ∧
    u.role = ro ∧ u.id = st.nextId ∧ 1 ≤ u.id ∧ u.joined_at = now := by
  obtain ⟨hpw, hall, hpos⟩ := reachable_inv hre
  obtain ⟨hnil, hu, hst1⟩ := create_ok h
  have hid : u.id = st.nextId := by rw [hu]
  refine ⟨?_, by rw [hu]; simp [hfn], by rw [hu]; simp [hem],
    by rw [hu]; simp [hro], hid, by rw [hid]; exact hpos, by rw [hu]⟩
  rw [hst1]
  show (st.rows ++ [u]).find? (fun r => r.id == u.id) = some u
  rw [find?_skip_left]
  · simp
  · intro v hv
    have hlt := (hall v hv).2.2.1
    rw [hid]
    simp only [beq_eq_false_iff_ne, ne_eq]
    exact Nat.ne_of_lt hlt

theorem C5_create_then_get_witness :
    getById ⟨[⟨1, "Alice Smith", "alice@example.com", "BUYER", 5⟩], 2⟩ 1 =
      some ⟨1, "Alice Smith", "alice@example.com", "BUYER", 5⟩ ∧
    "Alice Smith" = "Alice Smith" ∧
    "alice@example.com" = "alice@example.com" ∧
    "BUYER" = "BUYER" ∧ (1 : Nat) = 1 ∧ (1 : Nat) ≤ 1 ∧ (5 : Nat) = 5 :=
  @C5_create_then_get initStore 5
    ⟨some "Alice Smith", some "alice@example.com", some "BUYER", none, none⟩
    ⟨1, "Alice Smith", "alice@example.com", "BUYER", 5⟩
    ⟨[⟨1, "Alice Smith", "alice@example.com", "BUYER", 5⟩], 2⟩
    "Alice Smith" "alice@example.com" "BUYER"
    Reachable.init rfl rfl rfl rfl

theorem runCreates_rows {bs : List (Nat × RequestBody)} {st st1 : Store}
    (h : runCreates st bs = some st1) :
    st1.rows.map (fun u => (u.full_name, u.email, u.role, u.joined_at)) =
      st.rows.map (fun u => (u.full_name, u.email, u.role, u.joined_at)) ++
      bs.map (fun p => (p.2.full_name.getD "", p.2.email.getD "",
        p.2.role.getD "", p.1)) := by
  induction bs generalizing st with
  | nil =>
    simp only [runCreates, Option.some.injEq] at h
    rw [← h]
    simp
  | cons p rest ih =>
    obtain ⟨now, b⟩ := p
    rw [runCreates] at h
    rcases hc : create st now b with errs | pair <;> rw [hc] at h
    · exact absurd h (by simp)
    · obtain ⟨u, st2⟩ := pair
      have hrows := ih h
      obtain ⟨hnil, hu, hst2⟩ := create_ok hc
      rw [hrows, hst2, hu]
      simp [List.append_assoc]

/-- C7: list() returns the stored registrants in insertion order: after N
successful creates from the empty store (no intervening deletes) it holds
exactly N rows whose full name, email, role and joined-at instant match,
in order, the corresponding create requests. -/
theorem C7_list_insertion_order (bs : List (Nat × RequestBody)) (st : Store)
    (h : runCreates initStore bs = some st) :
    (listAll st).length = bs.length ∧
    (listAll st).map (fun u => (u.full_name, u.email, u.role, u.joined_at)) =
      bs.map (fun p => (p.2.full_name.getD "", p.2.email.getD "",
        p.2.role.getD "", p.1)) := by
  have hrows := runCreates_rows h
  simp only [initStore, List.map_nil, List.nil_append] at hrows
  refine ⟨?_, hrows⟩
  have hlen := congrArg List.length hrows
  simpa [listAll] using hlen

theorem C7_list_insertion_order_witness :
    (listAll ⟨[⟨1, "Alice Smith", "alice@example.com", "BUYER", 5⟩,
      ⟨2, "Bob Jones", "bob@example.com", "SELLER", 7⟩], 3⟩).length =
      ([(5, ⟨some "Alice Smith", some "alice@example.com", some "BUYER",
          none, none⟩),
        (7, ⟨some "Bob Jones", some "bob@example.com", some "SELLER",
          none, none⟩)] : List (Nat × RequestBody)).length ∧
    (listAll ⟨[⟨1, "Alice Smith", "alice@example.com", "BUYER", 5⟩,
      ⟨2, "Bob Jones", "bob@example.com", "SELLER", 7⟩], 3⟩).map
        (fun u => (u.full_name, u.email, u.role, u.joined_at)) =
      ([(5, ⟨some "Alice Smith", some "alice@example.com", some "BUYER",
          none, none⟩),
        (7, ⟨some "Bob Jones", some "bob@example.com", some "SELLER",
          none, none⟩)] : List (Nat × RequestBody)).map
        (fun p => (p.2.full_name.getD "", p.2.email.getD "",
          p.2.role.getD "", p.1)) :=
  C7_list_insertion_order
    [(5, ⟨some "Alice Smith", some "alice@example.com", some "BUYER",
      none, none⟩),
     (7, ⟨some "Bob Jones", some "bob@example.com", some "SELLER",
      none, none⟩)]
    ⟨[⟨1, "Alice Smith", "alice@example.com", "BUYER", 5⟩,
      ⟨2, "Bob Jones", "bob@example.com", "SELLER", 7⟩], 3⟩ rfl

/-- C8: a successful partial update of an existing registrant keeps `id`
and `joined_at` exactly as stored (only `full_name`, `email`, `role` can
change: the saved row is `applyPatch` of the old one, and every other row
is untouched), and any `id`/`joined_at` values supplied in the request
body are ignored: the update's outcome does not depend on them. -/
theorem C8_update_frame {st : Store} {i : Nat} {b : RequestBody}
    {u u1 : WaitlistUser} {st1 : Store} (x y : Option Nat)
    (hget : getById st i = some u) (h : update st i b = .ok (u1, st1)) :
    u1.id = u.id ∧ u1.joined_at = u.joined_at ∧
    st1.nextId = st.nextId ∧
    st1.rows = st.rows.map (fun r => if r.id = i then u1 else r) ∧
    update st i ⟨b.full_name, b.email, b.role, x, y⟩ = update st i b := by
  obtain ⟨u2, hget2, hperrs, hu1, hst1⟩ := update_ok h
  rw [hget] at hget2
  injection hget2 with hg
  refine ⟨?_, ?_, by rw [hst1], by rw [hst1], rfl⟩
  · rw [hu1, ← hg, applyPatch_id]
  · rw [hu1, ← hg, applyPatch_joined_at]

theorem C8_update_frame_witness :
    (⟨1, "Alicia Smith", "alice@example.com", "RIDER", 5⟩ :
      WaitlistUser).id =
      (⟨1, "Alice Smith", "alice@example.com", "BUYER", 5⟩ :
        WaitlistUser).id ∧
    (⟨1, "Alicia Smith", "alice@example.com", "RIDER", 5⟩ :
      WaitlistUser).joined_at =
      (⟨1, "Alice Smith", "alice@example.com", "BUYER", 5⟩ :
        WaitlistUser).joined_at ∧
    (⟨[⟨1, "Alicia Smith", "alice@example.com", "RIDER", 5⟩], 2⟩ :
      Store).nextId =
      (⟨[⟨1, "Alice Smith", "alice@example.com", "BUYER", 5⟩], 2⟩ :
        Store).nextId ∧
    (⟨[⟨1, "Alicia Smith", "alice@example.com", "RIDER", 5⟩], 2⟩ :
      Store).rows =
      (⟨[⟨1, "Alice Smith", "alice@example.com", "BUYER", 5⟩], 2⟩ :
        Store).rows.map
        (fun r => if r.id = 1
          then ⟨1, "Alicia Smith", "alice@example.com", "RIDER", 5⟩
          else r) ∧
    update ⟨[⟨1, "Alice Smith", "alice@example.com", "BUYER", 5⟩], 2⟩ 1
      ⟨some "Alicia Smith", none, some "RIDER", some 77, some 99⟩ =
    update ⟨[⟨1, "Alice Smith", "alice@example.com", "BUYER", 5⟩], 2⟩ 1
      ⟨some "Alicia Smith", none, some "RIDER", none, none⟩ :=
  @C8_update_frame
    ⟨[⟨1, "Alice Smith", "alice@example.com", "BUYER", 5⟩], 2⟩ 1
    ⟨some "Alicia Smith", none, some "RIDER", none, none⟩
    ⟨1, "Alice Smith", "alice@example.com", "BUYER", 5⟩
    ⟨1, "Alicia Smith", "alice@example.com", "RIDER", 5⟩
    ⟨[⟨1, "Alicia Smith", "alice@example.com", "RIDER", 5⟩], 2⟩
    (some 77) (some 99) rfl rfl

theorem maxLength_mem {st : Store} {fn : String} (hlong : 100 < fn.length)
    (em ro : Option String) (x y : Option Nat) :
    FieldError.maxLength "full_name" ∈
      fieldErrs st ⟨some fn, em, ro, x, y⟩ := by
  have hne : fn ≠ "" := by
    intro hcontra
    rw [hcontra] at hlong
    simp [String.length] at hlong
  unfold fieldErrs
  refine List.mem_append_left _ (List.mem_append_left _ ?_)
  show FieldError.maxLength "full_name" ∈
    (if fn = "" then [FieldError.blank "full_name"]
     else if fn.length > 100 then [FieldError.maxLength "full_name"]
     else [])
  rw [if_neg hne, if_pos hlong]
  exact List.mem_singleton.mpr rfl

/-- C9: full_name is required and bounded at 100 characters.  Every
stored row of a reachable state satisfies the bound; a create whose
full_name exceeds 100 characters fails with a max-length error and HTTP
400; a create without full_name fails with a required error and HTTP
400; a partial update of an existing row with an over-long full_name
fails with 400 and a max-length error. -/
theorem C9_full_name_bound {st : Store} {i : Nat} {u : WaitlistUser}
    {fn : String}
    (hre : Reachable st) (hget : getById st i = some u)
    (hlong : 100 < fn.length) (now : Nat)
    (em ro : Option String) (x y : Option Nat) :
    st.rows.all (fun v => decide (v.full_name.length ≤ 100)) = true ∧
    FieldError.maxLength "full_name" ∈
      fieldErrs st ⟨some fn, em, ro, x, y⟩ ∧
    (postWaitlist st now ⟨some fn, em, ro, x, y⟩).1.1 = 400 ∧
    FieldError.required "full_name" ∈ fieldErrs st ⟨none, em, ro, x, y⟩ ∧
    (postWaitlist st now ⟨none, em, ro, x, y⟩).1.1 = 400 ∧
    FieldError.maxLength "full_name" ∈
      patchErrs st i ⟨some fn, em, ro, x, y⟩ ∧
    update st i ⟨some fn, em, ro, x, y⟩ =
      .error (400, patchErrs st i ⟨some fn, em, ro, x, y⟩) := by
  obtain ⟨hpw, hall, hpos⟩ := reachable_inv hre
  have hne : fn ≠ "" := by
    intro hcontra
    rw [hcontra] at hlong
    simp [String.length] at hlong
  have hmax := @maxLength_mem st fn hlong em ro x y
  have hreq : FieldError.required "full_name" ∈
      fieldErrs st ⟨none, em, ro, x, y⟩ := by
    unfold fieldErrs
    exact List.mem_append_left _ (List.mem_append_left _
      (List.mem_singleton.mpr rfl))
  have hpatch : FieldError.maxLength "full_name" ∈
      patchErrs st i ⟨some fn, em, ro, x, y⟩ := by
    unfold patchErrs
    refine List.mem_append_left _ (List.mem_append_left _ ?_)
    show FieldError.maxLength "full_name" ∈
      (if fn = "" then [FieldError.blank "full_name"]
       else if fn.length > 100 then [FieldError.maxLength "full_name"]
       else [])
    rw [if_neg hne, if_pos hlong]
    exact List.mem_singleton.mpr rfl
  refine ⟨?_, hmax, post_400_of_errs now (List.ne_nil_of_mem hmax),
    hreq, post_400_of_errs now (List.ne_nil_of_mem hreq), hpatch, ?_⟩
  · rw [List.all_eq_true]
    intro v hv
    simpa using (hall v hv).1
  · unfold update
    rw [hget]
    exact if_neg (List.ne_nil_of_mem hpatch)

theorem C9_full_name_bound_witness :
    (⟨[⟨1, "Alice Smith", "alice@example.com", "BUYER", 5⟩], 2⟩ :
      Store).rows.all (fun v => decide (v.full_name.length ≤ 100)) = true ∧
    FieldError.maxLength "full_name" ∈
      fieldErrs ⟨[⟨1, "Alice Smith", "alice@example.com", "BUYER", 5⟩], 2⟩
        ⟨some (String.mk (List.replicate 101 'a')), none, none,
          none, none⟩ ∧
    (postWaitlist
      ⟨[⟨1, "Alice Smith", "alice@example.com", "BUYER", 5⟩], 2⟩ 9
      ⟨some (String.mk (List.replicate 101 'a')), none, none,
        none, none⟩).1.1 = 400 ∧
    FieldError.required "full_name" ∈
      fieldErrs ⟨[⟨1, "Alice Smith", "alice@example.com", "BUYER", 5⟩], 2⟩
        ⟨none, none, none, none, none⟩ ∧
    (postWaitlist
      ⟨[⟨1, "Alice Smith", "alice@example.com", "BUYER", 5⟩], 2⟩ 9
      ⟨none, none, none, none, none⟩).1.1 = 400 ∧
    FieldError.maxLength "full_name" ∈
      patchErrs ⟨[⟨1, "Alice Smith", "alice@example.com", "BUYER", 5⟩], 2⟩ 1
        ⟨some (String.mk (List.replicate 101 'a')), none, none,
          none, none⟩ ∧
    update ⟨[⟨1, "Alice Smith", "alice@example.com", "BUYER", 5⟩], 2⟩ 1
      ⟨some (String.mk (List.replicate 101 'a')), none, none,
        none, none⟩ =
      .error (400,
        patchErrs ⟨[⟨1, "Alice Smith", "alice@example.com", "BUYER", 5⟩], 2⟩
          1 ⟨some (String.mk (List.replicate 101 'a')), none, none,
            none, none⟩) :=
  @C9_full_name_bound
    ⟨[⟨1, "Alice Smith", "alice@example.com", "BUYER", 5⟩], 2⟩ 1
    ⟨1, "Alice Smith", "alice@example.com", "BUYER", 5⟩
    (String.mk (List.replicate 101 'a'))
    (Reachable.createStep initStore 5
      ⟨some "Alice Smith", some "alice@example.com", some "BUYER",
        none, none⟩
      ⟨1, "Alice Smith", "alice@example.com", "BUYER", 5⟩
      ⟨[⟨1, "Alice Smith", "alice@example.com", "BUYER", 5⟩], 2⟩
      Reachable.init rfl)
    rfl (by decide) 9 none none none none
